import Mathlib

/-!
Shallow embedding of the scrum-pointing backend (`src/index.js`, the
grace-period variant, which the repository treats as canonical).

The server keeps a registry `rooms[roomName]` of per-room mutable state and
mutates it from socket event handlers (`join`, `vote`, `revealVotes`,
`endSession`, `forceRemoveUser`, `endPointingSession`, `startSession`,
`updateMood`, `logout`, `disconnect`, and the grace-period timer callback
armed by `disconnect`).  Handlers run to completion one at a time, so each is
embedded as a pure function from (room state, environment data) to
(room state, emitted events).  The set of nicknames currently holding a live
transport in the room ("connected") is derived by the server from the socket
registry; here every handler that consults it receives it as an explicit
argument chosen by the environment.

A JS object keyed by nicknames is embedded as an insertion-ordered
association list: assignment updates the existing entry in place or appends a
fresh one, `delete` drops the entry, and key enumeration follows list order
(nickname keys are never integer-like, so JS enumerates them in insertion
order).  The frequency object built by `revealVotes` has numeric keys, for
which JS key enumeration is array indices in ascending order first and the
remaining keys in insertion order; that object gets its own embedding below.
-/

namespace ScrumPointing

/-- A value stored in a room's `votes` object.  The server never inspects the
payload beyond: strict comparison with `null` and `''`, `Number(...)`
coercion with an `isNaN` test, and passing the raw value through; so votes
are embedded by those observable classes.  `vnum n` is a payload that
`Number` coerces to the integer `n` (e.g. the string "5"), `vother s` a
non-empty payload whose coercion is `NaN` (e.g. "?").  An absent key models
JS `undefined`. -/
inductive Vote where
  | vnull : Vote
  | vempty : Vote
  | vnum (n : Int) : Vote
  | vother (s : String) : Vote
deriving DecidableEq

/-- Value of `Number(v)` when it is not `NaN`: `Number(null) = 0`,
`Number('') = 0`, a numeric string coerces to its value and a non-numeric
non-empty string to `NaN` (`none`). -/
def Vote.toNum : Vote → Option Int
  | .vnull => some 0
  | .vempty => some 0
  | .vnum n => some n
  | .vother _ => none

/-- JS property assignment `m[k] = v` on a string-keyed object: update the
entry in place if the key exists, otherwise append it. -/
def objSet (m : List (String × α)) (k : String) (v : α) : List (String × α) :=
  match m with
  | [] => [(k, v)]
  | kv :: rest => if kv.1 == k then (k, v) :: rest else kv :: objSet rest k v

/-- JS property read `m[k]`: `none` models `undefined`. -/
def objGet (m : List (String × α)) (k : String) : Option α :=
  match m with
  | [] => none
  | kv :: rest => if kv.1 == k then some kv.2 else objGet rest k

/-- JS `delete m[k]`. -/
def objDel (m : List (String × α)) (k : String) : List (String × α) :=
  m.filter (fun kv => kv.1 != k)

/-- Key enumeration of a string-keyed object (insertion order). -/
def objKeys (m : List (String × α)) : List String :=
  m.map (fun kv => kv.1)

/-- Per-room state, exactly the fields of `rooms[roomName]` in the source.
`disconnectTimers` records which nicknames currently have an armed
grace-period removal timer (the timer handle itself carries no other
observable data). -/
structure RoomState where
  participants : List String
  roles : List (String × String)
  avatars : List (String × String)
  moods : List (String × String)
  votes : List (String × Vote)
  typing : List String
  currentStory : String
  disconnectTimers : List String
  devices : List (String × String)
deriving DecidableEq

/-- The fresh room created on first join. -/
def emptyRoom : RoomState :=
  { participants := [], roles := [], avatars := [], moods := [], votes := []
    typing := [], currentStory := "", disconnectTimers := [], devices := [] }

/-- Outbound events a handler emits to the room (audience bookkeeping such as
`socket.to` versus `io.to` is not modelled; the summary event records its
recipient). -/
inductive Event where
  | participantsUpdate (names : List String) (roles avatars moods : List (String × String))
      (connected : List String) (devices : List (String × String)) : Event
  | userJoined (name : String) : Event
  | userLeft (name : String) : Event
  | updateVotes (votes : List (String × Vote)) : Event
  | sessionEnded : Event
  | sessionTerminated : Event
  | startSessionEvt (title : String) : Event
  | revealVotesEvt (story : String) : Event
  | voteSummary (recipient : String) (consensus : List Int)
      (voteList : List (String × Option String × Option Vote)) : Event
deriving DecidableEq

/-- The `participantsUpdate` broadcast payload assembled from a room state
and the connected-nickname list. -/
def pUpdate (connected : List String) (r : RoomState) : Event :=
  .participantsUpdate r.participants r.roles r.avatars r.moods connected r.devices

/-- State mutation of the `join` handler.  A pending disconnect timer for a
returning participant is cancelled; a genuinely new nickname is appended to
`participants`; in every case role/avatar/mood/device are overwritten with
the payload values and the vote is reset to `null`. -/
def joinState (name role avatar emoji device : String) (r : RoomState) : RoomState :=
  let r :=
    if r.participants.contains name && r.disconnectTimers.contains name then
      { r with disconnectTimers := r.disconnectTimers.filter (fun p => p != name) }
    else if !(r.participants.contains name) then
      { r with participants := r.participants ++ [name] }
    else r
  { r with
    roles := objSet r.roles name role
    avatars := objSet r.avatars name avatar
    moods := objSet r.moods name emoji
    votes := objSet r.votes name Vote.vnull
    devices := objSet r.devices name device }

/-- The `join` handler: joining a missing room creates it first. -/
def joinRoom (name role avatar emoji device : String) (connected : List String)
    (ro : Option RoomState) : Option RoomState × List Event :=
  let r := joinState name role avatar emoji device (ro.getD emptyRoom)
  (some r, [pUpdate connected r, .userJoined name])

/-- The `vote` handler.  The socket's own authenticated nickname
(`senderNickname`, the handler closure's `nickname` variable) is in scope but
never consulted: the vote is recorded under the nickname supplied in the
payload. -/
def voteHandler (senderNickname : String) (name : String) (point : Vote)
    (ro : Option RoomState) : Option RoomState × List Event :=
  match ro with
  | none => (none, [])
  | some r =>
      let r := { r with votes := objSet r.votes name point }
      (some r, [.updateVotes r.votes])

/-- The `updateMood` handler: like `vote`, it writes under the payload
nickname; the sender's identity is in scope but unused. -/
def updateMoodHandler (senderNickname : String) (name emoji : String)
    (connected : List String) (ro : Option RoomState) : Option RoomState × List Event :=
  match ro with
  | none => (none, [])
  | some r =>
      let r := { r with moods := objSet r.moods name emoji }
      (some r, [pUpdate connected r])

/-- The `endSession` handler: wipes the votes object and the story. -/
def endSessionHandler (ro : Option RoomState) : Option RoomState × List Event :=
  match ro with
  | none => (none, [])
  | some r => (some { r with votes := [], currentStory := "" }, [.sessionEnded])

/-- The `startSession` handler: rebuilds `votes` as `null` for every current
participant and installs the new story title. -/
def startSessionHandler (title : String) (ro : Option RoomState) :
    Option RoomState × List Event :=
  match ro with
  | none => (none, [])
  | some r =>
      let r := { r with
        votes := r.participants.foldl (fun m p => objSet m p Vote.vnull) []
        currentStory := title }
      (some r, [.startSessionEvt title])

/-- Removal of one nickname from every per-nickname structure, the common
body of `forceRemoveUser`, `logout` and the grace-timer callback. -/
def removeUser (name : String) (r : RoomState) : RoomState :=
  { r with
    participants := r.participants.filter (fun p => p != name)
    roles := objDel r.roles name
    avatars := objDel r.avatars name
    moods := objDel r.moods name
    votes := objDel r.votes name
    devices := objDel r.devices name
    disconnectTimers := r.disconnectTimers.filter (fun p => p != name) }

/-- The `forceRemoveUser` handler: silently returns unless the sender's role
is Scrum Master, the target is a participant, and the target has no connected
transport; on success removes the target and broadcasts.  It never deletes
the room, even if `participants` becomes empty. -/
def forceRemoveUser (sender target : String) (connected : List String)
    (ro : Option RoomState) : Option RoomState × List Event :=
  match ro with
  | none => (none, [])
  | some r =>
      if !(objGet r.roles sender == some "Scrum Master") then (some r, [])
      else if !(r.participants.contains target) then (some r, [])
      else if connected.contains target then (some r, [])
      else
        let r := removeUser target r
        (some r, [pUpdate connected r, .userLeft target])

/-- The `endPointingSession` handler.  The source comment says "(Scrum Master
only)" but the body performs no role check: any sender whose room exists
terminates the session and deletes the room. -/
def endPointingSession (senderNickname : String) (ro : Option RoomState) :
    Option RoomState × List Event :=
  match ro with
  | none => (none, [])
  | some _ => (none, [.sessionTerminated])

/-- The `logout` handler: cancels any pending timer, removes the sender from
every structure, broadcasts, and deletes the room when `participants` has
become empty. -/
def logoutHandler (name : String) (connected : List String)
    (ro : Option RoomState) : Option RoomState × List Event :=
  match ro with
  | none => (none, [])
  | some r =>
      let r := removeUser name r
      (if r.participants.isEmpty then none else some r,
       [pUpdate connected r, .userLeft name])

/-- The `disconnect` handler: broadcasts the shrunken connected list and a
`userLeft`, leaves `participants` untouched, and (re)arms the grace-period
removal timer for the nickname. -/
def disconnectHandler (name : String) (connected : List String)
    (ro : Option RoomState) : Option RoomState × List Event :=
  match ro with
  | none => (none, [])
  | some r =>
      let r' := { r with disconnectTimers :=
        if r.disconnectTimers.contains name then r.disconnectTimers
        else r.disconnectTimers ++ [name] }
      (some r', [pUpdate connected r, .userLeft name])

/-- The grace-period timer callback armed by `disconnect`.  It can run only
while its entry is still registered in `disconnectTimers` (`clearTimeout`
always accompanies deletion of the entry); it re-checks that the nickname has
no connected transport before removing, and on removal it does NOT delete the
room even when `participants` becomes empty.  On a room already deleted from
the registry it has no registry-observable effect. -/
def graceFire (name : String) (connected : List String)
    (ro : Option RoomState) : Option RoomState × List Event :=
  match ro with
  | none => (none, [])
  | some r =>
      if r.disconnectTimers.contains name then
        if connected.contains name then (some r, [])
        else
          let r := removeUser name r
          (some r, [pUpdate connected r, .userLeft name])
      else (some r, [])

/-- The frequency object `freq` of `revealVotes` is keyed by numbers.
`freq[p] = (freq[p] || 0) + 1`: bump the entry in place or create it at 1. -/
def freqBump (f : List (Int × Nat)) (k : Int) : List (Int × Nat) :=
  match f with
  | [] => [(k, 1)]
  | kc :: rest => if kc.1 == k then (k, kc.2 + 1) :: rest else kc :: freqBump rest k

/-- Read `freq[k] || 0`. -/
def freqLookup (f : List (Int × Nat)) (k : Int) : Nat :=
  match f with
  | [] => 0
  | kc :: rest => if kc.1 == k then kc.2 else freqLookup rest k

/-- Whether an integer, used as a JS property key, is an array index
(a canonical integer in `[0, 2^32 - 1)`); such keys are enumerated before
all others, in ascending order. -/
def isArrayIdx (k : Int) : Bool :=
  decide (0 ≤ k) && decide (k < 2 ^ 32 - 1)

/-- `Object.keys` order for the numeric-keyed `freq` object: array-index keys
ascending, then the remaining keys in insertion order. -/
def jsNumKeys (f : List (Int × Nat)) : List Int :=
  List.insertionSort (fun a b => a ≤ b) ((f.map (fun kc => kc.1)).filter isArrayIdx)
    ++ (f.map (fun kc => kc.1)).filter (fun k => !(isArrayIdx k))

/-- Nicknames of sockets connected to the room whose role is `Developer`,
in socket-iteration order. -/
def connectedDevelopers (connected : List String) (r : RoomState) : List String :=
  connected.filter (fun n => objGet r.roles n == some "Developer")

/-- The guard `votes[name] !== null && votes[name] !== undefined &&
votes[name] !== ''` on the raw stored value. -/
def validVote : Option Vote → Bool
  | none => false
  | some .vnull => false
  | some .vempty => false
  | some _ => true

/-- Connected Developers whose stored vote is present and non-empty. -/
def validVoters (connected : List String) (r : RoomState) : List String :=
  (connectedDevelopers connected r).filter (fun n => validVote (objGet r.votes n))

/-- `Number(votes[name])` filtered through the `!isNaN` guard
(`Number(undefined)` is `NaN`). -/
def voteNum (r : RoomState) (n : String) : Option Int :=
  (objGet r.votes n).bind Vote.toNum

/-- The frequency object after the `validVoters.forEach` loop. -/
def buildFreq (voters : List String) (r : RoomState) : List (Int × Nat) :=
  voters.foldl (fun f n =>
    match voteNum r n with
    | some p => freqBump f p
    | none => f) []

/-- `Math.max(...Object.values(freq), 0)`. -/
def maxCount (f : List (Int × Nat)) : Nat :=
  (f.map (fun kc => kc.2)).foldl Nat.max 0

/-- `Object.keys(freq).filter(k => freq[k] === maxCount).map(Number)`. -/
def consensusOf (f : List (Int × Nat)) : List Int :=
  (jsNumKeys f).filter (fun k => freqLookup f k == maxCount f)

/-- The `voteList` array: every valid voter with their avatar and raw vote. -/
def voteListOf (connected : List String) (r : RoomState) :
    List (String × Option String × Option Vote) :=
  (validVoters connected r).map (fun n => (n, objGet r.avatars n, objGet r.votes n))

/-- The pure tally computed by the `revealVotes` handler:
`(consensus, voteList)`. -/
def revealTally (connected : List String) (r : RoomState) :
    List Int × List (String × Option String × Option Vote) :=
  (consensusOf (buildFreq (validVoters connected r) r), voteListOf connected r)

/-- The `revealVotes` handler: read-only on room state; broadcasts the reveal
and sends the detailed summary to each connected Scrum Master. -/
def revealHandler (connected : List String) (ro : Option RoomState) :
    Option RoomState × List Event :=
  match ro with
  | none => (none, [])
  | some r =>
      let t := revealTally connected r
      (some r,
        Event.revealVotesEvt r.currentStory ::
          ((r.participants.filter (fun p => objGet r.roles p == some "Scrum Master")).filter
            (fun p => connected.contains p)).map
            (fun sm => Event.voteSummary sm t.1 t.2))

/-- One inbound occurrence the room can experience: a client event (with the
connected-nickname list the server would derive at that instant supplied by
the environment) or the firing of an armed grace timer. -/
inductive Op where
  | opJoin (name role avatar emoji device : String) (connected : List String) : Op
  | opVote (sender name : String) (point : Vote) : Op
  | opReveal (connected : List String) : Op
  | opEndSession : Op
  | opForceRemove (sender target : String) (connected : List String) : Op
  | opEndPointing (sender : String) : Op
  | opStartSession (title : String) : Op
  | opUpdateMood (sender name emoji : String) (connected : List String) : Op
  | opLogout (name : String) (connected : List String) : Op
  | opDisconnect (name : String) (connected : List String) : Op
  | opGraceFire (name : String) (connected : List String) : Op
deriving DecidableEq

/-- Dispatch one occurrence against the (possibly absent) room. -/
def step (op : Op) (ro : Option RoomState) : Option RoomState × List Event :=
  match op with
  | .opJoin name role avatar emoji device connected =>
      joinRoom name role avatar emoji device connected ro
  | .opVote sender name point => voteHandler sender name point ro
  | .opReveal connected => revealHandler connected ro
  | .opEndSession => endSessionHandler ro
  | .opForceRemove sender target connected => forceRemoveUser sender target connected ro
  | .opEndPointing sender => endPointingSession sender ro
  | .opStartSession title => startSessionHandler title ro
  | .opUpdateMood sender name emoji connected => updateMoodHandler sender name emoji connected ro
  | .opLogout name connected => logoutHandler name connected ro
  | .opDisconnect name connected => disconnectHandler name connected ro
  | .opGraceFire name connected => graceFire name connected ro

/-- The room state reached from an initially absent room after a sequence of
occurrences. -/
def execOps (ops : List Op) : Option RoomState :=
  ops.foldl (fun ro op => (step op ro).1) none


/-! Basic lemmas about the JS-object embedding. -/

theorem objGet_objSet_self (m : List (String × α)) (k : String) (v : α) :
    objGet (objSet m k v) k = some v := by
  induction m with
  | nil => simp [objSet, objGet]
  | cons kv rest ih =>
      by_cases h : kv.1 = k
      · simp [objSet, objGet, h]
      · simp [objSet, objGet, h, ih]

theorem objGet_objSet_ne (m : List (String × α)) (k k' : String) (v : α)
    (h : k' ≠ k) : objGet (objSet m k v) k' = objGet m k' := by
  induction m with
  | nil => simp [objSet, objGet, Ne.symm h]
  | cons kv rest ih =>
      by_cases hk : kv.1 = k
      · simp [objSet, objGet, hk, Ne.symm h, h]
      · by_cases hk' : kv.1 = k'
        · simp [objSet, objGet, hk, hk', h]
        · simp [objSet, objGet, hk, hk', h, ih]

theorem objKeys_objSet_mem (m : List (String × α)) (k : String) (v : α)
    (h : k ∈ objKeys m) : objKeys (objSet m k v) = objKeys m := by
  induction m with
  | nil => simp [objKeys] at h
  | cons kv rest ih =>
      by_cases hk : kv.1 = k
      · simp [objSet, objKeys, hk]
      · have hmem : k ∈ objKeys rest := by
          simpa [objKeys, Ne.symm hk] using h
        have hrec := ih hmem
        simp only [objKeys] at hrec
        simp [objSet, objKeys, hk, hrec]

theorem objKeys_objSet_notMem (m : List (String × α)) (k : String) (v : α)
    (h : k ∉ objKeys m) : objKeys (objSet m k v) = objKeys m ++ [k] := by
  induction m with
  | nil => simp [objSet, objKeys]
  | cons kv rest ih =>
      have hk : ¬ kv.1 = k := by
        intro hk
        exact h (by simp [objKeys, hk])
      have hsub : k ∉ objKeys rest := fun hm => h (List.mem_cons_of_mem kv.1 hm)
      have hrec := ih hsub
      simp only [objKeys] at hrec
      simp [objSet, objKeys, hk, hrec]

theorem objKeys_objDel (m : List (String × α)) (k : String) :
    objKeys (objDel m k) = (objKeys m).filter (fun p => p != k) := by
  induction m with
  | nil => simp [objDel, objKeys]
  | cons kv rest ih =>
      have hrec : objKeys (objDel rest k) = (objKeys rest).filter (fun p => p != k) := ih
      simp only [objKeys, objDel] at hrec ⊢
      by_cases hk : kv.1 = k
      · simp [hk, hrec]
      · simp [hk, hrec]

theorem objGet_objDel_self (m : List (String × α)) (k : String) :
    objGet (objDel m k) k = none := by
  induction m with
  | nil => simp [objDel, objGet]
  | cons kv rest ih =>
      by_cases hk : kv.1 = k
      · simpa [objDel, objGet, hk] using ih
      · simpa [objDel, objGet, hk] using ih

/-! The orphan-free invariant that actually holds: the key sets of `roles`
and `avatars` coincide with `participants` after every operation sequence.
It fails for `votes` (`endSession` wipes the object while participants
persist) and for `moods` (`updateMood` accepts an arbitrary payload
nickname); see the counterexample below. -/

def goodKeys (r : RoomState) : Prop :=
  objKeys r.roles = r.participants ∧ objKeys r.avatars = r.participants

theorem removeUser_goodKeys (name : String) (r : RoomState) (h : goodKeys r) :
    goodKeys (removeUser name r) := by
  obtain ⟨h1, h2⟩ := h
  constructor <;> simp [removeUser, objKeys_objDel, h1, h2]

theorem joinState_goodKeys (name role avatar emoji device : String) (r : RoomState)
    (h : goodKeys r) : goodKeys (joinState name role avatar emoji device r) := by
  obtain ⟨h1, h2⟩ := h
  by_cases hmem : name ∈ r.participants
  · have hroles := objKeys_objSet_mem r.roles name role (h1.symm ▸ hmem)
    have havatars := objKeys_objSet_mem r.avatars name avatar (h2.symm ▸ hmem)
    by_cases htm : name ∈ r.disconnectTimers
    · exact ⟨by simp [joinState, hmem, htm, hroles, h1],
             by simp [joinState, hmem, htm, havatars, h2]⟩
    · exact ⟨by simp [joinState, hmem, htm, hroles, h1],
             by simp [joinState, hmem, htm, havatars, h2]⟩
  · have hr1 : name ∉ objKeys r.roles := h1.symm ▸ hmem
    have hr2 : name ∉ objKeys r.avatars := h2.symm ▸ hmem
    constructor
    · simp [joinState, hmem, objKeys_objSet_notMem r.roles name role hr1, h1]
    · simp [joinState, hmem, objKeys_objSet_notMem r.avatars name avatar hr2, h2]

theorem step_goodKeys (op : Op) (ro : Option RoomState)
    (h : ∀ r, ro = some r → goodKeys r) :
    ∀ r', (step op ro).1 = some r' → goodKeys r' := by
  cases op with
  | opJoin name role avatar emoji device connected =>
      intro r' hr'
      simp only [step, joinRoom, Option.some.injEq] at hr'
      subst hr'
      match ro with
      | none => exact joinState_goodKeys name role avatar emoji device emptyRoom ⟨rfl, rfl⟩
      | some r => exact joinState_goodKeys name role avatar emoji device r (h r rfl)
  | opVote sender name point =>
      intro r' hr'
      match ro with
      | none => simp [step, voteHandler] at hr'
      | some r =>
          simp only [step, voteHandler, Option.some.injEq] at hr'
          subst hr'
          exact h r rfl
  | opReveal connected =>
      intro r' hr'
      match ro with
      | none => simp [step, revealHandler] at hr'
      | some r =>
          simp only [step, revealHandler, Option.some.injEq] at hr'
          subst hr'
          exact h r rfl
  | opEndSession =>
      intro r' hr'
      match ro with
      | none => simp [step, endSessionHandler] at hr'
      | some r =>
          simp only [step, endSessionHandler, Option.some.injEq] at hr'
          subst hr'
          exact h r rfl
  | opForceRemove sender target connected =>
      intro r' hr'
      match ro with
      | none => simp [step, forceRemoveUser] at hr'
      | some r =>
          simp only [step, forceRemoveUser] at hr'
          split at hr'
          · simp only [Option.some.injEq] at hr'
            subst hr'
            exact h r rfl
          · split at hr'
            · simp only [Option.some.injEq] at hr'
              subst hr'
              exact h r rfl
            · split at hr'
              · simp only [Option.some.injEq] at hr'
                subst hr'
                exact h r rfl
              · simp only [Option.some.injEq] at hr'
                subst hr'
                exact removeUser_goodKeys target r (h r rfl)
  | opEndPointing sender =>
      intro r' hr'
      match ro with
      | none => simp [step, endPointingSession] at hr'
      | some r => simp [step, endPointingSession] at hr'
  | opStartSession title =>
      intro r' hr'
      match ro with
      | none => simp [step, startSessionHandler] at hr'
      | some r =>
          simp only [step, startSessionHandler, Option.some.injEq] at hr'
          subst hr'
          exact h r rfl
  | opUpdateMood sender name emoji connected =>
      intro r' hr'
      match ro with
      | none => simp [step, updateMoodHandler] at hr'
      | some r =>
          simp only [step, updateMoodHandler, Option.some.injEq] at hr'
          subst hr'
          exact h r rfl
  | opLogout name connected =>
      intro r' hr'
      match ro with
      | none => simp [step, logoutHandler] at hr'
      | some r =>
          simp only [step, logoutHandler] at hr'
          split at hr'
          · simp at hr'
          · simp only [Option.some.injEq] at hr'
            subst hr'
            exact removeUser_goodKeys name r (h r rfl)
  | opDisconnect name connected =>
      intro r' hr'
      match ro with
      | none => simp [step, disconnectHandler] at hr'
      | some r =>
          simp only [step, disconnectHandler, Option.some.injEq] at hr'
          subst hr'
          exact h r rfl
  | opGraceFire name connected =>
      intro r' hr'
      match ro with
      | none => simp [step, graceFire] at hr'
      | some r =>
          simp only [step, graceFire] at hr'
          split at hr'
          · split at hr'
            · simp only [Option.some.injEq] at hr'
              subst hr'
              exact h r rfl
            · simp only [Option.some.injEq] at hr'
              subst hr'
              exact removeUser_goodKeys name r (h r rfl)
          · simp only [Option.some.injEq] at hr'
            subst hr'
            exact h r rfl

theorem foldl_goodKeys (ops : List Op) (ro : Option RoomState)
    (h : ∀ r, ro = some r → goodKeys r) :
    ∀ r, (ops.foldl (fun ro op => (step op ro).1) ro) = some r → goodKeys r := by
  induction ops generalizing ro with
  | nil => exact h
  | cons op rest ih =>
      intro r hr
      exact ih ((step op ro).1) (step_goodKeys op ro h) r hr


/-- Claim C1 counterexample: the claimed invariant fails as stated.  After a
single join of "A" followed by `endSession`, the `votes` object is empty while
`participants` is still `["A"]`, so the key set of `votes` differs from
`participants` (the cited `endSession` code wipes `votes` wholesale). -/
theorem C1_keys_counterexample :
    execOps [Op.opJoin "A" "Developer" "a" "e" "d" ["A"], Op.opEndSession] =
      some (RoomState.mk ["A"] [("A", "Developer")] [("A", "a")] [("A", "e")]
        [] [] "" [] [("A", "d")]) ∧
    objKeys (RoomState.mk ["A"] [("A", "Developer")] [("A", "a")] [("A", "e")]
        ([] : List (String × Vote)) [] "" [] [("A", "d")]).votes ≠
      (RoomState.mk ["A"] [("A", "Developer")] [("A", "a")] [("A", "e")]
        ([] : List (String × Vote)) [] "" [] [("A", "d")]).participants :=
  ⟨by decide, by decide⟩

/-- Claim C1 (amended): after every operation sequence the key sets of
`roles` and `avatars` equal `participants` exactly; the corresponding
statement for `votes` and `moods` is false (see the counterexample:
`endSession` empties `votes`, and `vote` and `updateMood` write under
arbitrary payload nicknames). -/
theorem C1_amended_roles_avatars_keys (ops : List Op) (r : RoomState)
    (h : execOps ops = some r) :
    objKeys r.roles = r.participants ∧ objKeys r.avatars = r.participants :=
  foldl_goodKeys ops none (fun _ hx => Option.noConfusion hx) r h

/-- Witness for C1 (amended) at a concrete one-join run. -/
theorem C1_amended_roles_avatars_keys_witness :
    objKeys (RoomState.mk ["A"] [("A", "Developer")] [("A", "a")] [("A", "e")]
        [("A", Vote.vnull)] [] "" [] [("A", "d")]).roles =
      (RoomState.mk ["A"] [("A", "Developer")] [("A", "a")] [("A", "e")]
        [("A", Vote.vnull)] [] "" [] [("A", "d")]).participants ∧
    objKeys (RoomState.mk ["A"] [("A", "Developer")] [("A", "a")] [("A", "e")]
        [("A", Vote.vnull)] [] "" [] [("A", "d")]).avatars =
      (RoomState.mk ["A"] [("A", "Developer")] [("A", "a")] [("A", "e")]
        [("A", Vote.vnull)] [] "" [] [("A", "d")]).participants :=
  C1_amended_roles_avatars_keys [Op.opJoin "A" "Developer" "a" "e" "d" ["A"]] _
    (by decide)

/-! Lemmas for the `revealVotes` tally. -/

theorem validVote_iff (ov : Option Vote) :
    validVote ov = true ↔
      ∃ v, ov = some v ∧ v ≠ Vote.vnull ∧ v ≠ Vote.vempty := by
  cases ov with
  | none => simp [validVote]
  | some v => cases v <;> simp [validVote]

theorem mem_validVoters (connected : List String) (r : RoomState) (n : String) :
    n ∈ validVoters connected r ↔
      n ∈ connected ∧ objGet r.roles n = some "Developer" ∧
        ∃ v, objGet r.votes n = some v ∧ v ≠ Vote.vnull ∧ v ≠ Vote.vempty := by
  simp only [validVoters, connectedDevelopers, List.mem_filter, beq_iff_eq,
    validVote_iff, and_assoc]

theorem freqLookup_freqBump (f : List (Int × Nat)) (p k : Int) :
    freqLookup (freqBump f p) k = freqLookup f k + (if p = k then 1 else 0) := by
  induction f with
  | nil =>
      by_cases h : p = k
      · simp [freqBump, freqLookup, h]
      · simp [freqBump, freqLookup, h]
  | cons kc rest ih =>
      by_cases hk : kc.1 = p
      · by_cases hpk : p = k
        · simp [freqBump, freqLookup, hk, hpk]
        · have hck : ¬ kc.1 = k := fun hc => hpk (hk.symm.trans hc)
          simp [freqBump, freqLookup, hk, hpk, hck]
      · by_cases hck : kc.1 = k
        · have hpk : ¬ p = k := fun hp => hk (hck.trans hp.symm)
          have hkp : ¬ k = p := fun hp => hpk hp.symm
          simp [freqBump, freqLookup, hk, hck, hpk, hkp]
        · simp [freqBump, freqLookup, hk, hck, ih]

theorem keys_freqBump (f : List (Int × Nat)) (p : Int) :
    (freqBump f p).map (fun kc => kc.1) =
      if p ∈ f.map (fun kc => kc.1) then f.map (fun kc => kc.1)
      else f.map (fun kc => kc.1) ++ [p] := by
  induction f with
  | nil => simp [freqBump]
  | cons kc rest ih =>
      by_cases hk : kc.1 = p
      · simp [freqBump, hk]
      · by_cases hp : p ∈ rest.map (fun kc => kc.1)
        · simp [freqBump, hk, hp, Ne.symm hk, ih]
        · simp [freqBump, hk, hp, Ne.symm hk, ih]

theorem mem_keys_freqBump (f : List (Int × Nat)) (p k : Int) :
    k ∈ (freqBump f p).map (fun kc => kc.1) ↔
      k ∈ f.map (fun kc => kc.1) ∨ k = p := by
  rw [keys_freqBump]
  by_cases hp : p ∈ f.map (fun kc => kc.1)
  · simp only [hp, if_true]
    constructor
    · exact Or.inl
    · rintro (h | h)
      · exact h
      · exact h ▸ hp
  · simp [hp]

theorem keys_nodup_freqBump (f : List (Int × Nat)) (p : Int)
    (h : (f.map (fun kc => kc.1)).Nodup) :
    ((freqBump f p).map (fun kc => kc.1)).Nodup := by
  rw [keys_freqBump]
  by_cases hp : p ∈ f.map (fun kc => kc.1)
  · simpa [hp] using h
  · simp [hp, List.nodup_append, h]

theorem freqLookup_eq_of_mem (f : List (Int × Nat)) (kc : Int × Nat)
    (hnd : (f.map (fun kc => kc.1)).Nodup) (hm : kc ∈ f) :
    freqLookup f kc.1 = kc.2 := by
  induction f with
  | nil => simp at hm
  | cons hd rest ih =>
      simp only [List.map_cons, List.nodup_cons] at hnd
      rcases List.mem_cons.mp hm with h | h
      · simp [freqLookup, h]
      · have hne : ¬ hd.1 = kc.1 := by
          intro he
          exact hnd.1 (by rw [he]; exact List.mem_map_of_mem (fun kc => kc.1) h)
        simp [freqLookup, hne, ih hnd.2 h]


theorem freqLookup_buildFreq (voters : List String) (r : RoomState) (k : Int) :
    freqLookup (buildFreq voters r) k = (voters.filterMap (voteNum r)).count k := by
  have aux : ∀ (l : List String) (init : List (Int × Nat)),
      freqLookup (l.foldl (fun f n => match voteNum r n with
        | some p => freqBump f p | none => f) init) k
        = freqLookup init k + (l.filterMap (voteNum r)).count k := by
    intro l
    induction l with
    | nil => intro init; simp
    | cons a l ih =>
        intro init
        cases hv : voteNum r a with
        | none => simpa [List.foldl_cons, hv, List.filterMap_cons] using ih init
        | some p =>
            simp only [List.foldl_cons, hv, List.filterMap_cons]
            rw [ih (freqBump init p), freqLookup_freqBump, List.count_cons]
            by_cases hpk : p = k
            · simp only [hpk, beq_self_eq_true, if_true, if_pos rfl]
              omega
            · simp only [hpk, if_false, beq_iff_eq, if_neg hpk]
              omega
  simpa [buildFreq, freqLookup] using aux voters []

theorem mem_keys_buildFreq (voters : List String) (r : RoomState) (k : Int) :
    k ∈ (buildFreq voters r).map (fun kc => kc.1) ↔
      k ∈ voters.filterMap (voteNum r) := by
  have aux : ∀ (l : List String) (init : List (Int × Nat)),
      (k ∈ (l.foldl (fun f n => match voteNum r n with
        | some p => freqBump f p | none => f) init).map (fun kc => kc.1)
        ↔ k ∈ init.map (fun kc => kc.1) ∨ k ∈ l.filterMap (voteNum r)) := by
    intro l
    induction l with
    | nil => intro init; simp
    | cons a l ih =>
        intro init
        cases hv : voteNum r a with
        | none => simpa [List.foldl_cons, hv, List.filterMap_cons] using ih init
        | some p =>
            simp only [List.foldl_cons, hv, List.filterMap_cons, List.mem_cons]
            rw [ih (freqBump init p), mem_keys_freqBump]
            tauto
  simpa [buildFreq] using aux voters []

theorem keys_nodup_buildFreq (voters : List String) (r : RoomState) :
    ((buildFreq voters r).map (fun kc => kc.1)).Nodup := by
  have aux : ∀ (l : List String) (init : List (Int × Nat)),
      (init.map (fun kc => kc.1)).Nodup →
      ((l.foldl (fun f n => match voteNum r n with
        | some p => freqBump f p | none => f) init).map (fun kc => kc.1)).Nodup := by
    intro l
    induction l with
    | nil => intro init h; simpa using h
    | cons a l ih =>
        intro init h
        cases hv : voteNum r a with
        | none => simpa [List.foldl_cons, hv] using ih init h
        | some p =>
            simpa [List.foldl_cons, hv] using
              ih (freqBump init p) (keys_nodup_freqBump init p h)
  exact aux voters [] (by simp)

theorem le_foldl_max (l : List Nat) (init : Nat) : init ≤ l.foldl Nat.max init := by
  induction l generalizing init with
  | nil => simp
  | cons a l ih => exact le_trans (Nat.le_max_left init a) (ih (Nat.max init a))

theorem mem_le_foldl_max (l : List Nat) (x : Nat) (hx : x ∈ l) :
    ∀ init, x ≤ l.foldl Nat.max init := by
  induction l with
  | nil => simp at hx
  | cons a l ih =>
      intro init
      rcases List.mem_cons.mp hx with h | h
      · subst h
        exact le_trans (Nat.le_max_right init x) (le_foldl_max l (Nat.max init x))
      · exact ih h (Nat.max init a)

theorem foldl_max_mem (l : List Nat) :
    ∀ init, l.foldl Nat.max init = init ∨ l.foldl Nat.max init ∈ l := by
  induction l with
  | nil => intro init; simp
  | cons a l ih =>
      intro init
      rcases ih (Nat.max init a) with h | h
      · rcases Nat.le_total init a with hle | hle
        · right
          simp only [List.foldl_cons, List.mem_cons]
          left
          rw [h]
          exact Nat.max_eq_right hle
        · left
          simp only [List.foldl_cons]
          rw [h]
          exact Nat.max_eq_left hle
      · right
        exact List.mem_cons_of_mem a h

theorem le_maxCount (f : List (Int × Nat)) (kc : Int × Nat) (h : kc ∈ f) :
    kc.2 ≤ maxCount f :=
  mem_le_foldl_max _ _ (List.mem_map_of_mem (fun kc => kc.2) h) 0

theorem maxCount_cases (f : List (Int × Nat)) :
    maxCount f = 0 ∨ ∃ kc, kc ∈ f ∧ kc.2 = maxCount f := by
  rcases foldl_max_mem (f.map (fun kc => kc.2)) 0 with h | h
  · exact Or.inl h
  · right
    rcases List.mem_map.mp h with ⟨kc, hkc, he⟩
    exact ⟨kc, hkc, he⟩

theorem mem_jsNumKeys (f : List (Int × Nat)) (k : Int) :
    k ∈ jsNumKeys f ↔ k ∈ f.map (fun kc => kc.1) := by
  simp only [jsNumKeys, List.mem_append,
    (List.perm_insertionSort (fun a b => a ≤ b) _).mem_iff, List.mem_filter]
  cases hidx : isArrayIdx k <;> simp [hidx]

theorem mem_consensusOf (f : List (Int × Nat)) (k : Int) :
    k ∈ consensusOf f ↔
      k ∈ f.map (fun kc => kc.1) ∧ freqLookup f k = maxCount f := by
  simp [consensusOf, List.mem_filter, mem_jsNumKeys]

theorem freqLookup_of_mem_keys (f : List (Int × Nat)) (k : Int)
    (hnd : (f.map (fun kc => kc.1)).Nodup) (h : k ∈ f.map (fun kc => kc.1)) :
    ∃ kc, kc ∈ f ∧ kc.1 = k ∧ freqLookup f k = kc.2 := by
  rcases List.mem_map.mp h with ⟨kc, hkc, he⟩
  exact ⟨kc, hkc, he, he ▸ freqLookup_eq_of_mem f kc hnd hkc⟩

theorem consensus_characterization (voters : List String) (r : RoomState) (k : Int) :
    k ∈ consensusOf (buildFreq voters r) ↔
      k ∈ voters.filterMap (voteNum r) ∧
        ∀ j, (voters.filterMap (voteNum r)).count j ≤
          (voters.filterMap (voteNum r)).count k := by
  rw [mem_consensusOf, mem_keys_buildFreq, freqLookup_buildFreq]
  constructor
  · rintro ⟨hk, hc⟩
    refine ⟨hk, fun j => ?_⟩
    by_cases hj : j ∈ voters.filterMap (voteNum r)
    · rcases freqLookup_of_mem_keys (buildFreq voters r) j
        (keys_nodup_buildFreq voters r)
        ((mem_keys_buildFreq voters r j).mpr hj) with ⟨kc, hkc, hk1, hk2⟩
      have := le_maxCount (buildFreq voters r) kc hkc
      rw [← freqLookup_buildFreq voters r j, hk2]
      omega
    · rw [List.count_eq_zero_of_not_mem hj]
      exact Nat.zero_le _
  · rintro ⟨hk, hmax⟩
    refine ⟨hk, ?_⟩
    have hle : (voters.filterMap (voteNum r)).count k ≤ maxCount (buildFreq voters r) := by
      rcases freqLookup_of_mem_keys (buildFreq voters r) k
        (keys_nodup_buildFreq voters r)
        ((mem_keys_buildFreq voters r k).mpr hk) with ⟨kc, hkc, hk1, hk2⟩
      rw [← freqLookup_buildFreq voters r k, hk2]
      exact le_maxCount (buildFreq voters r) kc hkc
    rcases maxCount_cases (buildFreq voters r) with h0 | ⟨kc, hkc, hmc⟩
    · have hpos : 0 < (voters.filterMap (voteNum r)).count k :=
        List.count_pos_iff.mpr hk
      omega
    · have hk1 : kc.1 ∈ (buildFreq voters r).map (fun kc => kc.1) :=
        List.mem_map_of_mem (fun kc => kc.1) hkc
      have hkv : kc.1 ∈ voters.filterMap (voteNum r) :=
        (mem_keys_buildFreq voters r kc.1).mp hk1
      have hcnt : (voters.filterMap (voteNum r)).count kc.1 = kc.2 := by
        rw [← freqLookup_buildFreq voters r kc.1]
        exact freqLookup_eq_of_mem (buildFreq voters r) kc
          (keys_nodup_buildFreq voters r) hkc
      have := hmax kc.1
      omega


/-- Claim C2: `revealVotes` tallies exactly the connected Developers whose
stored vote is present and non-empty; the consensus consists exactly of the
numerically-coercible vote values of those voters that are tied for maximum
frequency (non-numeric votes are absent from the tally but their voters still
head the voteList); and with zero valid voters the tally is
`consensus = []`, `voteList = []` — the computation is total, no error is
possible. -/
theorem C2_reveal_tally (connected : List String) (r : RoomState) :
    (∀ n, n ∈ validVoters connected r ↔
        n ∈ connected ∧ objGet r.roles n = some "Developer" ∧
          ∃ v, objGet r.votes n = some v ∧ v ≠ Vote.vnull ∧ v ≠ Vote.vempty) ∧
    (∀ k, k ∈ (revealTally connected r).1 ↔
        k ∈ (validVoters connected r).filterMap (voteNum r) ∧
          ∀ j, ((validVoters connected r).filterMap (voteNum r)).count j ≤
            ((validVoters connected r).filterMap (voteNum r)).count k) ∧
    ((revealTally connected r).2.map (fun e => e.1) = validVoters connected r) ∧
    (validVoters connected r = [] →
        (revealTally connected r).1 = [] ∧ (revealTally connected r).2 = []) := by
  refine ⟨mem_validVoters connected r, ?_, ?_, ?_⟩
  · intro k
    exact consensus_characterization (validVoters connected r) r k
  · simp only [revealTally, voteListOf, List.map_map]
    exact List.map_id _
  · intro h
    constructor
    · show consensusOf (buildFreq (validVoters connected r) r) = []
      rw [h]
      rfl
    · show voteListOf connected r = []
      simp [voteListOf, h]

/-- Witness for C2 at the concrete zero-valid-voter instance. -/
theorem C2_reveal_tally_witness :
    (revealTally ([] : List String) emptyRoom).1 = [] ∧
    (revealTally ([] : List String) emptyRoom).2 = [] :=
  (C2_reveal_tally [] emptyRoom).2.2.2 rfl

/-- Claim C7 counterexample: two connected Developers vote -1 and -2 (a tie
at maximum frequency 1), and the consensus is emitted as [-1, -2] — the
freq-object insertion order — which is not ascending.  Negative numbers are
not JS array-index keys, so `Object.keys` does not enumerate them in numeric
order, and the cited code performs no sort. -/
theorem C7_ascending_counterexample :
    (revealTally ["A", "B"] (RoomState.mk ["A", "B"]
        [("A", "Developer"), ("B", "Developer")] [] []
        [("A", Vote.vnum (-1)), ("B", Vote.vnum (-2))] [] "" [] [])).1 =
      [-1, -2] ∧
    ¬ List.Sorted (fun a b => a ≤ b) [(-1 : Int), -2] := by
  constructor
  · decide
  · decide

theorem consensusOf_sorted_of_tied_idx (f : List (Int × Nat))
    (h : ∀ k ∈ consensusOf f, isArrayIdx k = true) :
    (consensusOf f).Sorted (fun a b => a ≤ b) := by
  have heq : consensusOf f =
      (List.insertionSort (fun a b => a ≤ b)
        ((f.map (fun kc => kc.1)).filter isArrayIdx)).filter
        (fun k => freqLookup f k == maxCount f) ++
      ((f.map (fun kc => kc.1)).filter (fun k => !(isArrayIdx k))).filter
        (fun k => freqLookup f k == maxCount f) := by
    simp only [consensusOf, jsNumKeys]
    rw [List.filter_append]
  have hnil : ((f.map (fun kc => kc.1)).filter (fun k => !(isArrayIdx k))).filter
      (fun k => freqLookup f k == maxCount f) = [] := by
    rw [List.filter_eq_nil_iff]
    intro a ha hp
    have hmem : a ∈ consensusOf f := by
      rw [heq]
      exact List.mem_append_right _ (List.mem_filter.mpr ⟨ha, hp⟩)
    have hidx := h a hmem
    have hnidx : (!(isArrayIdx a)) = true := (List.mem_filter.mp ha).2
    simp [hidx] at hnidx
  rw [heq, hnil, List.append_nil]
  exact List.Pairwise.sublist (List.filter_sublist _)
    (List.sorted_insertionSort _ _)

/-- Claim C7 (amended): whenever every value tied for maximum frequency —
that is, every element of the consensus — is a JS array index (a non-negative
integer below 2^32 - 1), the consensus list is ascending: all its elements
come from the array-index segment of `Object.keys(freq)`, which is
enumerated in ascending order.  When some tied value is not an array index
(negative, or at least 2^32 - 1), it is enumerated in freq-insertion order
after the index keys and the list need not be ascending (see the
counterexample). -/
theorem C7_amended_consensus_sorted (connected : List String) (r : RoomState)
    (h : ∀ k ∈ (revealTally connected r).1, isArrayIdx k = true) :
    ((revealTally connected r).1).Sorted (fun a b => a ≤ b) :=
  consensusOf_sorted_of_tied_idx (buildFreq (validVoters connected r) r) h

/-- Witness for C7 (amended): Developers vote 3, 3, 5, 5 and -1; the tie at
maximum frequency 2 is between the array indices 3 and 5 (the non-index
value -1 is not part of the tie), and the consensus comes out ascending as
[3, 5]. -/
theorem C7_amended_consensus_sorted_witness :
    ((revealTally ["A", "B", "C", "D", "E"] (RoomState.mk
        ["A", "B", "C", "D", "E"]
        [("A", "Developer"), ("B", "Developer"), ("C", "Developer"),
          ("D", "Developer"), ("E", "Developer")] [] []
        [("A", Vote.vnum 3), ("B", Vote.vnum 3), ("C", Vote.vnum 5),
          ("D", Vote.vnum 5), ("E", Vote.vnum (-1))] [] "" [] [])).1).Sorted
      (fun a b => a ≤ b) :=
  C7_amended_consensus_sorted ["A", "B", "C", "D", "E"] _ (by decide)


/-! Lemmas for rejoin, removal and the grace-timer callback. -/

theorem joinState_rejoin (name role avatar emoji device : String) (r : RoomState)
    (hmem : name ∈ r.participants) (htm : name ∈ r.disconnectTimers) :
    joinState name role avatar emoji device r =
      { r with
        disconnectTimers := r.disconnectTimers.filter (fun p => p != name)
        roles := objSet r.roles name role
        avatars := objSet r.avatars name avatar
        moods := objSet r.moods name emoji
        votes := objSet r.votes name Vote.vnull
        devices := objSet r.devices name device } := by
  have hc : (r.participants.contains name && r.disconnectTimers.contains name) = true := by
    rw [Bool.and_eq_true]
    exact ⟨List.elem_iff.mpr hmem, List.elem_iff.mpr htm⟩
  simp only [joinState]
  rw [if_pos hc]

theorem joinState_after_rejoin (name role avatar emoji device : String)
    (r : RoomState) (hmem : name ∈ r.participants)
    (htm : name ∈ r.disconnectTimers) (hnd : r.participants.Nodup) :
    (joinState name role avatar emoji device r).participants.count name = 1 ∧
    objGet (joinState name role avatar emoji device r).votes name = some Vote.vnull ∧
    (joinState name role avatar emoji device r).disconnectTimers.contains name = false := by
  rw [joinState_rejoin name role avatar emoji device r hmem htm]
  refine ⟨List.count_eq_one_of_mem hnd hmem, objGet_objSet_self _ _ _, by simp⟩

/-- Claim C3: for a participant N, disconnect(N) followed by join(N) before
the grace timer fires leaves N in `participants` exactly once, resets N's
vote to null, cancels the pending removal timer, and a stale grace-timer
firing afterwards is a complete no-op (no state change, no events). -/
theorem C3_rejoin_cancels_removal (r : RoomState)
    (name role avatar emoji device : String) (c1 c2 c3 : List String)
    (hmem : name ∈ r.participants) (hnd : r.participants.Nodup) :
    ∀ r2, (joinRoom name role avatar emoji device c2
        (disconnectHandler name c1 (some r)).1).1 = some r2 →
      r2.participants.count name = 1 ∧
      objGet r2.votes name = some Vote.vnull ∧
      r2.disconnectTimers.contains name = false ∧
      graceFire name c3 (some r2) = (some r2, []) := by
  intro r2 hr2
  simp only [disconnectHandler, joinRoom, Option.getD, Option.some.injEq] at hr2
  have htm1 : name ∈ (if r.disconnectTimers.contains name then r.disconnectTimers
      else r.disconnectTimers ++ [name]) := by
    by_cases hx : r.disconnectTimers.contains name = true
    · rw [if_pos hx]
      exact List.elem_iff.mp hx
    · rw [if_neg hx]
      simp
  subst hr2
  obtain ⟨h1, h2, h3⟩ := joinState_after_rejoin name role avatar emoji device
    { r with disconnectTimers :=
        if r.disconnectTimers.contains name then r.disconnectTimers
        else r.disconnectTimers ++ [name] }
    hmem htm1 hnd
  refine ⟨h1, h2, h3, ?_⟩
  simp only [graceFire, h3, Bool.false_eq_true, if_false]

/-- Witness for C3: the sole participant "A" (with an earlier vote of 5)
disconnects and rejoins; the resulting room has the vote reset and the timer
cancelled. -/
theorem C3_rejoin_cancels_removal_witness :
    (RoomState.mk ["A"] [("A", "Developer")] [("A", "a")] [("A", "e")]
        [("A", Vote.vnull)] [] "" [] [("A", "d")]).participants.count "A" = 1 ∧
    objGet (RoomState.mk ["A"] [("A", "Developer")] [("A", "a")] [("A", "e")]
        [("A", Vote.vnull)] [] "" [] [("A", "d")]).votes "A" = some Vote.vnull ∧
    (RoomState.mk ["A"] [("A", "Developer")] [("A", "a")] [("A", "e")]
        [("A", Vote.vnull)] [] "" [] [("A", "d")]).disconnectTimers.contains "A"
      = false ∧
    graceFire "A" [] (some (RoomState.mk ["A"] [("A", "Developer")] [("A", "a")]
        [("A", "e")] [("A", Vote.vnull)] [] "" [] [("A", "d")])) =
      (some (RoomState.mk ["A"] [("A", "Developer")] [("A", "a")] [("A", "e")]
        [("A", Vote.vnull)] [] "" [] [("A", "d")]), []) :=
  C3_rejoin_cancels_removal
    (RoomState.mk ["A"] [("A", "Developer")] [("A", "a")] [("A", "e")]
      [("A", Vote.vnum 5)] [] "" [] [("A", "d")])
    "A" "Developer" "a" "e" "d" [] ["A"] [] (by decide) (by decide)
    (RoomState.mk ["A"] [("A", "Developer")] [("A", "a")] [("A", "e")]
      [("A", Vote.vnull)] [] "" [] [("A", "d")]) (by decide)

/-- Claim C4: a grace-timer firing for a nickname with no connected transport
removes it from `participants` and from every per-nickname map and emits
exactly one `participantsUpdate` plus one `userLeft`; the callback
re-validates connectivity first, so for a reconnected nickname the firing
changes nothing and emits nothing. -/
theorem C4_grace_fire_removal (r : RoomState) (name : String)
    (connected : List String) :
    (name ∈ r.disconnectTimers → name ∉ connected →
      graceFire name connected (some r) =
        (some (removeUser name r),
          [pUpdate connected (removeUser name r), Event.userLeft name]) ∧
      name ∉ (removeUser name r).participants ∧
      objGet (removeUser name r).roles name = none ∧
      objGet (removeUser name r).avatars name = none ∧
      objGet (removeUser name r).moods name = none ∧
      objGet (removeUser name r).votes name = none ∧
      objGet (removeUser name r).devices name = none ∧
      name ∉ (removeUser name r).disconnectTimers) ∧
    (name ∈ connected → graceFire name connected (some r) = (some r, [])) := by
  constructor
  · intro htm hnc
    refine ⟨by simp [graceFire, htm, hnc], by simp [removeUser],
      objGet_objDel_self _ _, objGet_objDel_self _ _, objGet_objDel_self _ _,
      objGet_objDel_self _ _, objGet_objDel_self _ _, by simp [removeUser]⟩
  · intro hcon
    simp [graceFire, hcon]

/-- Witness for C4 at a concrete one-participant room with a pending timer. -/
theorem C4_grace_fire_removal_witness :
    graceFire "A" [] (some (RoomState.mk ["A"] [("A", "Developer")] [("A", "a")]
        [("A", "e")] [("A", Vote.vnull)] [] "" ["A"] [("A", "d")])) =
      (some (removeUser "A" (RoomState.mk ["A"] [("A", "Developer")] [("A", "a")]
        [("A", "e")] [("A", Vote.vnull)] [] "" ["A"] [("A", "d")])),
       [pUpdate [] (removeUser "A" (RoomState.mk ["A"] [("A", "Developer")]
         [("A", "a")] [("A", "e")] [("A", Vote.vnull)] [] "" ["A"] [("A", "d")])),
        Event.userLeft "A"]) ∧
    "A" ∉ (removeUser "A" (RoomState.mk ["A"] [("A", "Developer")] [("A", "a")]
        [("A", "e")] [("A", Vote.vnull)] [] "" ["A"] [("A", "d")])).participants :=
  ⟨((C4_grace_fire_removal (RoomState.mk ["A"] [("A", "Developer")] [("A", "a")]
      [("A", "e")] [("A", Vote.vnull)] [] "" ["A"] [("A", "d")]) "A" []).1
      (by decide) (by decide)).1,
   ((C4_grace_fire_removal (RoomState.mk ["A"] [("A", "Developer")] [("A", "a")]
      [("A", "e")] [("A", Vote.vnull)] [] "" ["A"] [("A", "d")]) "A" []).1
      (by decide) (by decide)).2.1⟩

/-- Claim C5: `forceRemoveUser` is a silent no-op (state untouched, nothing
emitted) whenever the sender's role is not Scrum Master, or the target is not
a participant, or the target still has a connected transport; in particular a
Developer-role sender never changes state and a connected target is never
removed. -/
theorem C5_forceRemove_noop (r : RoomState) (sender target : String)
    (connected : List String)
    (h : ¬ objGet r.roles sender = some "Scrum Master" ∨
      target ∉ r.participants ∨ target ∈ connected) :
    forceRemoveUser sender target connected (some r) = (some r, []) := by
  by_cases h1 : objGet r.roles sender = some "Scrum Master"
  · by_cases h2 : target ∈ r.participants
    · have h3 : target ∈ connected := by
        rcases h with h | h | h
        · exact absurd h1 h
        · exact absurd h2 h
        · exact h
      simp [forceRemoveUser, h1, h2, h3]
    · simp [forceRemoveUser, h1, h2]
  · simp [forceRemoveUser, h1]

/-- Witness for C5: a Developer-role sender attempting removal is a no-op. -/
theorem C5_forceRemove_noop_witness :
    forceRemoveUser "Dev" "SM" []
      (some (RoomState.mk ["SM", "Dev"]
        [("SM", "Scrum Master"), ("Dev", "Developer")] [] [] [] [] "" [] [])) =
      (some (RoomState.mk ["SM", "Dev"]
        [("SM", "Scrum Master"), ("Dev", "Developer")] [] [] [] [] "" [] []), []) :=
  C5_forceRemove_noop
    (RoomState.mk ["SM", "Dev"] [("SM", "Scrum Master"), ("Dev", "Developer")]
      [] [] [] [] "" [] []) "Dev" "SM" [] (Or.inl (by decide))


theorem mem_objKeys_of_objGet (m : List (String × α)) (k : String) (v : α)
    (h : objGet m k = some v) : k ∈ objKeys m := by
  induction m with
  | nil => simp [objGet] at h
  | cons kv rest ih =>
      by_cases hk : kv.1 = k
      · simp [objKeys, hk]
      · simp only [objGet, hk, beq_iff_eq, if_false] at h
        exact List.mem_cons_of_mem _ (ih h)

/-- Claim C6 counterexample: the sole participant "A" disconnects and the
grace timer fires; "A" is removed but the emptied room remains registered
(the timer callback has no empty-room cleanup, unlike `logout`). -/
theorem C6_empty_room_counterexample :
    execOps [Op.opJoin "A" "Developer" "a" "e" "d" ["A"],
             Op.opDisconnect "A" [], Op.opGraceFire "A" []] = some emptyRoom ∧
    emptyRoom.participants = [] :=
  ⟨by decide, rfl⟩

/-- Claim C6 (amended): `logout` deletes the room exactly when the removal
leaves `participants` empty, so no empty room survives a logout; the
grace-timer removal and `forceRemoveUser` never delete the room (hence the
grace-timer path can leave an empty room registered — see the
counterexample); and `forceRemoveUser` invoked by a connected Scrum Master
in a room satisfying the key invariant cannot empty `participants`, because
the sender is a participant distinct from the (disconnected) target and so
survives the removal. -/
theorem C6_amended_room_deletion (r : RoomState) (name sender target : String)
    (connected : List String) :
    (∀ r2, (logoutHandler name connected (some r)).1 = some r2 →
      r2.participants ≠ []) ∧
    ((removeUser name r).participants = [] →
      (logoutHandler name connected (some r)).1 = none) ∧
    ((graceFire name connected (some r)).1).isSome = true ∧
    ((forceRemoveUser sender target connected (some r)).1).isSome = true ∧
    (goodKeys r → objGet r.roles sender = some "Scrum Master" →
      sender ∈ connected →
      ∀ r2, (forceRemoveUser sender target connected (some r)).1 = some r2 →
        r2.participants ≠ []) := by
  refine ⟨?_, ?_, ?_, ?_, ?_⟩
  · intro r2 hr2
    by_cases he : (removeUser name r).participants.isEmpty = true
    · simp [logoutHandler, he] at hr2
    · simp only [logoutHandler] at hr2
      rw [if_neg he] at hr2
      simp only [Option.some.injEq] at hr2
      subst hr2
      intro hnil
      exact he (by rw [hnil]; rfl)
  · intro h
    have he : (removeUser name r).participants.isEmpty = true := by rw [h]; rfl
    simp [logoutHandler, he]
  · by_cases h1 : name ∈ r.disconnectTimers
    · by_cases h2 : name ∈ connected
      · simp [graceFire, h1, h2]
      · simp [graceFire, h1, h2]
    · simp [graceFire, h1]
  · simp only [forceRemoveUser]
    split
    · rfl
    · split
      · rfl
      · split
        · rfl
        · rfl
  · intro hg hrole hsc r2 hr2
    have hsmem : sender ∈ r.participants := by
      have hk := mem_objKeys_of_objGet r.roles sender "Scrum Master" hrole
      rwa [hg.1] at hk
    by_cases h2 : target ∈ r.participants
    · by_cases h3 : target ∈ connected
      · simp only [forceRemoveUser, hrole] at hr2
        simp [h2, h3] at hr2
        subst hr2
        exact List.ne_nil_of_mem hsmem
      · have hst : sender ≠ target := fun he => h3 (he ▸ hsc)
        simp only [forceRemoveUser, hrole] at hr2
        simp [h2, h3] at hr2
        subst hr2
        have hs2 : sender ∈ (removeUser target r).participants := by
          simp [removeUser, List.mem_filter, hsmem, hst]
        exact List.ne_nil_of_mem hs2
    · simp only [forceRemoveUser, hrole] at hr2
      simp [h2] at hr2
      subst hr2
      exact List.ne_nil_of_mem hsmem

/-- Witness for C6 (amended): logging out the sole participant deletes the
room. -/
theorem C6_amended_room_deletion_witness :
    (logoutHandler "A" [] (some (RoomState.mk ["A"] [("A", "Developer")]
      [("A", "a")] [("A", "e")] [("A", Vote.vnull)] [] "" []
      [("A", "d")]))).1 = none :=
  (C6_amended_room_deletion (RoomState.mk ["A"] [("A", "Developer")]
    [("A", "a")] [("A", "e")] [("A", Vote.vnull)] [] "" [] [("A", "d")])
    "A" "A" "A" []).2.1 (by decide)

/-- Claim C8 fails on the code: `endPointingSession` performs no role check
(contradicting its own source comment "(Scrum Master only)").  Whenever the
room exists the handler terminates the session and deletes the room for any
sender; in particular a Developer-role participant deletes the whole room. -/
theorem C8_no_role_check :
    (∀ sender r, endPointingSession sender (some r) =
      (none, [Event.sessionTerminated])) ∧
    execOps [Op.opJoin "SM" "Scrum Master" "a" "e" "d" ["SM"],
             Op.opJoin "Dev" "Developer" "a" "e" "d" ["SM", "Dev"]] =
      some (RoomState.mk ["SM", "Dev"]
        [("SM", "Scrum Master"), ("Dev", "Developer")]
        [("SM", "a"), ("Dev", "a")] [("SM", "e"), ("Dev", "e")]
        [("SM", Vote.vnull), ("Dev", Vote.vnull)] [] "" []
        [("SM", "d"), ("Dev", "d")]) ∧
    objGet [("SM", "Scrum Master"), ("Dev", "Developer")] "Dev" =
      some "Developer" ∧
    execOps [Op.opJoin "SM" "Scrum Master" "a" "e" "d" ["SM"],
             Op.opJoin "Dev" "Developer" "a" "e" "d" ["SM", "Dev"],
             Op.opEndPointing "Dev"] = none :=
  ⟨fun sender r => rfl, by decide, by decide, by decide⟩

theorem objGet_foldl_vnull_notMem (l : List String) (p : String) (hp : p ∉ l) :
    ∀ init : List (String × Vote),
      objGet (l.foldl (fun m q => objSet m q Vote.vnull) init) p = objGet init p := by
  induction l with
  | nil => intro init; rfl
  | cons a l ih =>
      intro init
      have hpa : p ≠ a := fun he => hp (he ▸ List.mem_cons_self a l)
      have hpl : p ∉ l := fun hm => hp (List.mem_cons_of_mem a hm)
      rw [List.foldl_cons, ih hpl, objGet_objSet_ne init a p Vote.vnull hpa]

theorem objGet_foldl_vnull (l : List String) (p : String) (hp : p ∈ l) :
    ∀ init : List (String × Vote),
      objGet (l.foldl (fun m q => objSet m q Vote.vnull) init) p =
        some Vote.vnull := by
  induction l with
  | nil => simp at hp
  | cons a l ih =>
      intro init
      rw [List.foldl_cons]
      by_cases hpl : p ∈ l
      · exact ih hpl (objSet init a Vote.vnull)
      · have hpa : p = a := by
          rcases List.mem_cons.mp hp with h | h
          · exact h
          · exact absurd h hpl
        subst hpa
        rw [objGet_foldl_vnull_notMem l p hpl (objSet init p Vote.vnull)]
        exact objGet_objSet_self init p Vote.vnull

/-- Claim C9: `startSession(title)` leaves the participant list unchanged,
sets `currentStory` to the supplied title, resets every current
participant's vote to null, and the broadcast carries exactly the title. -/
theorem C9_startSession_resets (title : String) (r : RoomState) :
    (startSessionHandler title (some r)).2 = [Event.startSessionEvt title] ∧
    ∀ r2, (startSessionHandler title (some r)).1 = some r2 →
      r2.currentStory = title ∧
      r2.participants = r.participants ∧
      ∀ p, p ∈ r.participants → objGet r2.votes p = some Vote.vnull := by
  refine ⟨rfl, ?_⟩
  intro r2 hr2
  simp only [startSessionHandler, Option.some.injEq] at hr2
  subst hr2
  refine ⟨rfl, rfl, ?_⟩
  intro p hp
  exact objGet_foldl_vnull r.participants p hp []

/-- Witness for C9 at a one-participant room with a stale vote. -/
theorem C9_startSession_resets_witness :
    (RoomState.mk ["A"] [("A", "Developer")] [("A", "a")] [("A", "e")]
      [("A", Vote.vnull)] [] "S" [] [("A", "d")]).currentStory = "S" ∧
    objGet (RoomState.mk ["A"] [("A", "Developer")] [("A", "a")] [("A", "e")]
      [("A", Vote.vnull)] [] "S" [] [("A", "d")]).votes "A" = some Vote.vnull :=
  let h := (C9_startSession_resets "S"
    (RoomState.mk ["A"] [("A", "Developer")] [("A", "a")] [("A", "e")]
      [("A", Vote.vnum 5)] [] "old" [] [("A", "d")])).2
    (RoomState.mk ["A"] [("A", "Developer")] [("A", "a")] [("A", "e")]
      [("A", Vote.vnull)] [] "S" [] [("A", "d")]) (by decide)
  ⟨h.1, h.2.2 "A" (by decide)⟩

/-- Claim C10: the state change and emission of `vote` and `updateMood`
depend only on the payload and the room, never on the sender's own
authenticated nickname — two different senders of the same payload produce
identical results — and the written entry is the payload nickname's, so any
client can overwrite any nickname's vote or mood, including another
participant's. -/
theorem C10_payload_only (s1 s2 name : String) (point : Vote) (emoji : String)
    (connected : List String) (ro : Option RoomState) :
    voteHandler s1 name point ro = voteHandler s2 name point ro ∧
    updateMoodHandler s1 name emoji connected ro =
      updateMoodHandler s2 name emoji connected ro ∧
    (∀ r, ro = some r →
      ∀ r2, (voteHandler s1 name point ro).1 = some r2 →
        objGet r2.votes name = some point) ∧
    (∀ r, ro = some r →
      ∀ r2, (updateMoodHandler s1 name emoji connected ro).1 = some r2 →
        objGet r2.moods name = some emoji) := by
  refine ⟨rfl, rfl, ?_, ?_⟩
  · intro r hro r2 hr2
    subst hro
    simp only [voteHandler, Option.some.injEq] at hr2
    subst hr2
    exact objGet_objSet_self _ _ _
  · intro r hro r2 hr2
    subst hro
    simp only [updateMoodHandler, Option.some.injEq] at hr2
    subst hr2
    exact objGet_objSet_self _ _ _

/-- Witness for C10: client "A" overwrites participant "B"'s vote, and the
result equals what any other sender ("Z") would produce. -/
theorem C10_payload_only_witness :
    voteHandler "A" "B" (Vote.vnum 8)
        (some (RoomState.mk ["A", "B"]
          [("A", "Developer"), ("B", "Developer")] [] []
          [("A", Vote.vnull), ("B", Vote.vnull)] [] "" [] [])) =
      voteHandler "Z" "B" (Vote.vnum 8)
        (some (RoomState.mk ["A", "B"]
          [("A", "Developer"), ("B", "Developer")] [] []
          [("A", Vote.vnull), ("B", Vote.vnull)] [] "" [] [])) ∧
    objGet (RoomState.mk ["A", "B"] [("A", "Developer"), ("B", "Developer")]
      [] [] [("A", Vote.vnull), ("B", Vote.vnum 8)] [] "" [] []).votes "B" =
      some (Vote.vnum 8) :=
  ⟨(C10_payload_only "A" "Z" "B" (Vote.vnum 8) "x" []
      (some (RoomState.mk ["A", "B"] [("A", "Developer"), ("B", "Developer")]
        [] [] [("A", Vote.vnull), ("B", Vote.vnull)] [] "" [] []))).1,
   (C10_payload_only "A" "Z" "B" (Vote.vnum 8) "x" []
      (some (RoomState.mk ["A", "B"] [("A", "Developer"), ("B", "Developer")]
        [] [] [("A", Vote.vnull), ("B", Vote.vnull)] [] "" [] []))).2.2.1
      (RoomState.mk ["A", "B"] [("A", "Developer"), ("B", "Developer")]
        [] [] [("A", Vote.vnull), ("B", Vote.vnull)] [] "" [] []) rfl
      (RoomState.mk ["A", "B"] [("A", "Developer"), ("B", "Developer")]
        [] [] [("A", Vote.vnull), ("B", Vote.vnum 8)] [] "" [] []) (by decide)⟩

end ScrumPointing
